import Mathlib

/-!
Verification of the clank-tracker card-detection pipeline.

The development shallowly embeds the two core modules of the repository:

* `src/ocr_processor.py` — text cleaning (`clean_text`), the card-name
  heuristic (`is_likely_card_name`) and the extraction/deduplication
  pipeline (`extract_card_names`);
* `src/game_tracker.py` — the session accumulator (`track_card_detection`,
  `track_game_event`, `track_screenshot`, `identify_scenario`,
  `save_session`, `load_session`, `get_session_stats`,
  `generate_session_report`);
* `src/screen_capture.py` — the OCR preprocessor (`preprocess_for_ocr`).

Python strings that flow through the OCR pipeline are modelled as lists of
code points (`PyStr := List Nat`), with the character classes (`str.split`
whitespace, `re` word characters, `str.isalpha`, `str.lower`, `str.title`)
modelled at ASCII, which is the character range the pipeline's keyword and
cleaning logic is written for.  The session accumulator works on opaque
card-name strings and is modelled over Lean `String`.
-/

/-- Python code points: a Python `str` is a sequence of code points. -/
abbrev PyStr := List Nat

/-- Code points of a Lean string literal, for readable concrete inputs. -/
def pyStr (s : String) : PyStr := s.toList.map Char.toNat

/-- ASCII whitespace, the characters `str.split()` / `str.strip()` / `re \s`
split and strip on (space, tab, newline, vertical tab, form feed,
carriage return). -/
def isPySpace (c : Nat) : Bool :=
  c = 32 || c = 9 || c = 10 || c = 11 || c = 12 || c = 13

/-- ASCII lower-case letter. -/
def isCpLower (c : Nat) : Bool := 97 ≤ c && c ≤ 122

/-- ASCII upper-case letter. -/
def isCpUpper (c : Nat) : Bool := 65 ≤ c && c ≤ 90

/-- ASCII letter (`str.isalpha` at ASCII). -/
def isCpAlpha (c : Nat) : Bool := isCpLower c || isCpUpper c

/-- ASCII digit. -/
def isCpDigit (c : Nat) : Bool := 48 ≤ c && c ≤ 57

/-- `re` word character `\w` at ASCII: letter, digit or underscore. -/
def isCpWord (c : Nat) : Bool := isCpAlpha c || isCpDigit c || c = 95

/-- Characters kept by `re.sub(r"[^\w\s\-\x27]", "", text)` in
`OCRProcessor.clean_text`: word characters, whitespace, hyphen (45) and
apostrophe (39). -/
def keepCp (c : Nat) : Bool := isCpWord c || isPySpace c || c = 45 || c = 39

/-- `str.upper` on one code point (ASCII). -/
def cpUpper (c : Nat) : Nat := if isCpLower c then c - 32 else c

/-- `str.lower` on one code point (ASCII). -/
def cpLower (c : Nat) : Nat := if isCpUpper c then c + 32 else c

/-- Helper of `splitWords`: `cur` is the current word, reversed. -/
def splitWordsAux : List Nat → List Nat → List PyStr
  | [], cur => if cur.isEmpty then [] else [cur.reverse]
  | c :: cs, cur =>
    if isPySpace c then
      if cur.isEmpty then splitWordsAux cs [] else cur.reverse :: splitWordsAux cs []
    else splitWordsAux cs (c :: cur)

/-- Python `text.split()`: split on whitespace runs, dropping empty pieces. -/
def splitWords (s : PyStr) : List PyStr := splitWordsAux s []

/-- Python `" ".join(words)`. -/
def joinSpace : List PyStr → PyStr
  | [] => []
  | [w] => w
  | w :: ws => w ++ 32 :: joinSpace ws

/-- `" ".join(text.split())`: collapse whitespace runs to single spaces. -/
def collapseWS (s : PyStr) : PyStr := joinSpace (splitWords s)

/-- `re.sub(r"[^\w\s\-\x27]", "", text)`: drop every disallowed character. -/
def stripArtifacts (s : PyStr) : PyStr := s.filter keepCp

/-- Helper of `pyTitle`; the flag records whether the previous character was
a (cased) letter.  Python `str.title` upper-cases a letter that follows a
non-letter and lower-cases a letter that follows a letter. -/
def titleAux : Bool → PyStr → PyStr
  | _, [] => []
  | prevAlpha, c :: cs =>
    if isCpAlpha c then
      (if prevAlpha then cpLower c else cpUpper c) :: titleAux true cs
    else c :: titleAux false cs

/-- Python `text.title()` (ASCII model). -/
def pyTitle (s : PyStr) : PyStr := titleAux false s

/-- Python `text.strip()`: drop leading and trailing whitespace. -/
def pyStrip (s : PyStr) : PyStr :=
  ((s.dropWhile isPySpace).reverse.dropWhile isPySpace).reverse

/-- `OCRProcessor.clean_text`:
`text = " ".join(text.split())`, then
`text = re.sub(r"[^\w\s\-\x27]", "", text)`, then
`text = text.title()`, then `return text.strip()`. -/
def clean_text (s : PyStr) : PyStr :=
  pyStrip (pyTitle (stripArtifacts (collapseWS s)))

/-- Python substring containment `needle in hay`, by structural recursion on
the haystack: the needle occurs iff it is a prefix of some suffix. -/
def listContains {α : Type} [DecidableEq α] (needle : List α) : List α → Bool
  | [] => needle.isEmpty
  | c :: t => needle.isPrefixOf (c :: t) || listContains needle t

/-- `OCRProcessor.card_keywords`, the fixed keyword list from
`ocr_processor.py`. -/
def card_keywords : List PyStr :=
  [pyStr "adventure", pyStr "artifact", pyStr "companion", pyStr "equipment",
   pyStr "skill", pyStr "market", pyStr "dungeon", pyStr "major secret",
   pyStr "minor secret", pyStr "clank", pyStr "skill point", pyStr "movement",
   pyStr "attack", pyStr "gold"]

/-- `OCRProcessor.is_likely_card_name`.  The Python comparison
`letter_count >= len(text) * 0.7` is between an integer and the double
`len(text) * 0.7`; for every length reachable in this branch (3-30) the
double comparison coincides with the exact rational one, so it is embedded
as `10 * letter_count >= 7 * len`. -/
def is_likely_card_name (text : PyStr) : Bool :=
  if text.isEmpty || text.length < 3 then false
  else if card_keywords.any (fun kw => listContains kw (text.map cpLower)) then true
  else if 3 ≤ text.length && text.length ≤ 30 then
    10 * (text.filter isCpAlpha).length ≥ 7 * text.length
  else false

/-- Python `text.split(chr(10))` — split on newline, keeping empty pieces
(`[].split` of the empty string is `[""]`). -/
def splitNl : PyStr → List PyStr
  | [] => [[]]
  | c :: cs =>
    if c = 10 then [] :: splitNl cs
    else
      match splitNl cs with
      | [] => [[c]]
      | w :: ws => (c :: w) :: ws

/-- The `unique_cards` loop at the end of `extract_card_names`
(`if card not in unique_cards: unique_cards.append(card)`), and also the
name-membership discipline of `track_card_detection`; `acc` is the list
accumulated so far. -/
def dedupAux {α : Type} [DecidableEq α] (acc : List α) : List α → List α
  | [] => acc
  | c :: cs => if c ∈ acc then dedupAux acc cs else dedupAux (acc ++ [c]) cs

/-- First-occurrence deduplication, as in `extract_card_names`. -/
def dedupFirst {α : Type} [DecidableEq α] (l : List α) : List α := dedupAux [] l

/-- Raster images.  `rgb` is a PIL RGB image (rows of `(r, g, b)` pixels),
`gray` a single-channel image as produced by the preprocessor. -/
inductive PyImage where
  | rgb (rows : List (List (Nat × Nat × Nat)))
  | gray (rows : List (List Nat))
deriving DecidableEq

/-- `OCRProcessor.extract_card_names`.  The two recognition engines are
external collaborators (`pytesseract.image_to_string`,
`easyocr.Reader.readtext`) and are passed in as functions; confidences are
modelled as exact rationals, the float literal `0.7` as `7/10`.  The body
mirrors the source: Engine A's blob is split into lines, each line cleaned
and filtered (guarded by `if tesseract_text:`); Engine B's regions are
kept when `confidence > 0.7`, cleaned and filtered; the concatenation is
deduplicated keeping first occurrences. -/
def extract_card_names (tess : PyImage → PyStr)
    (easy : PyImage → List (PyStr × ℚ)) (image : PyImage) : List PyStr :=
  let tesseract_text := tess image
  let easyocr_results := easy image
  let fromTess :=
    if tesseract_text.isEmpty then []
    else ((splitNl tesseract_text).map clean_text).filter is_likely_card_name
  let fromEasy :=
    (((easyocr_results.filter (fun r => r.2 > 7/10)).map
      (fun r => clean_text r.1)).filter is_likely_card_name)
  dedupFirst (fromTess ++ fromEasy)

/-- OpenCV fixed-point RGB-to-gray conversion
(`0.299 R + 0.587 G + 0.114 B`, computed as
`(R*4899 + G*9617 + B*1868 + 2^13) >> 14`), the net effect of the
`COLOR_RGB2BGR` followed by `COLOR_BGR2GRAY` conversions in
`ScreenCapture.preprocess_for_ocr`. -/
def grayValue (p : Nat × Nat × Nat) : Nat :=
  (p.1 * 4899 + p.2.1 * 9617 + p.2.2 * 1868 + 8192) / 16384

/-- Pixel histogram over the 256 gray levels. -/
def grayHistogram (pix : List Nat) : List Nat :=
  (List.range 256).map (fun i => (pix.filter (fun v => v = i)).length)

/-- State of the Otsu scan, everything held in exact integer arithmetic.
With `total` pixels, cumulative class-1 weight `w1` and cumulative sum
`s1 = Σ i·h[i]` over levels scanned so far, OpenCV's running quantities
are `q1 = w1/total`, `mu1 = s1/w1`, and at level `i` the between-class
variance is `sigma = d² / (total²·w1·w2)` with
`d = s1·w2 − (S − s1)·w1` and global sum `S = Σ i·h[i]`.  The best
variance so far is stored as the fraction `bestNum / (total²·bestDen)`. -/
structure OtsuState where
  w1 : Nat
  s1 : Nat
  bestNum : Nat
  bestDen : Nat
  bestVal : Nat

/-- One iteration of OpenCV's Otsu scan (`getThreshVal_Otsu_8u`), in exact
arithmetic with the common denominator `total²` cleared from the variance
comparison.  OpenCV skips a level when either class has (nearly) no mass;
with exact arithmetic the `FLT_EPSILON` tolerance is an exact zero test.
Exact arithmetic agrees with OpenCV's doubles except for double-rounding
ties, immaterial for the images considered here. -/
def otsuStep (total bigS : Nat) (st : OtsuState) (lvl : Nat × Nat) : OtsuState :=
  let w1n := st.w1 + lvl.2
  let s1n := st.s1 + lvl.1 * lvl.2
  let w2 := total - w1n
  if w1n = 0 ∨ w2 = 0 then { st with w1 := w1n, s1 := s1n }
  else
    let d : Int := (s1n : Int) * (w2 : Int) - ((bigS : Int) - (s1n : Int)) * (w1n : Int)
    let num := (d * d).toNat
    let den := w1n * w2
    if num * st.bestDen > st.bestNum * den then
      { w1 := w1n, s1 := s1n, bestNum := num, bestDen := den, bestVal := lvl.1 }
    else { st with w1 := w1n, s1 := s1n }

/-- OpenCV's Otsu threshold (`cv2.THRESH_OTSU`): the gray level maximizing
the between-class variance, first maximum winning. -/
def otsuThreshold (pix : List Nat) : Nat :=
  let total := pix.length
  if total = 0 then 0
  else
    let hist := (List.range 256).zip (grayHistogram pix)
    let bigS := (hist.map (fun l => l.1 * l.2)).sum
    (hist.foldl (otsuStep total bigS)
      { w1 := 0, s1 := 0, bestNum := 0, bestDen := 1, bestVal := 0 }).bestVal

/-- `ScreenCapture.preprocess_for_ocr`: convert to grayscale, then
`cv2.threshold(gray, 0, 255, cv2.THRESH_BINARY + cv2.THRESH_OTSU)`
(pixels strictly above the Otsu threshold become 255, the rest 0).
`cv2.cvtColor(..., COLOR_RGB2BGR)` rejects a single-channel input, so the
result is `none` on an already-gray image. -/
def preprocess_for_ocr : PyImage → Option PyImage
  | PyImage.rgb rows =>
    let gr := rows.map (fun row => row.map grayValue)
    let t := otsuThreshold gr.flatten
    some (PyImage.gray (gr.map (fun row => row.map (fun v => if v > t then 255 else 0))))
  | PyImage.gray _ => none

/-- Modelled from the spec (§4.3 step 1): the extraction pipeline the spec
describes, in which `extract_card_names` first preprocesses its input and
invokes both adapters on the same preprocessed image.  On an input the
preprocessor rejects, no adapter output exists and the pipeline yields
nothing. -/
def extract_card_names_spec (tess : PyImage → PyStr)
    (easy : PyImage → List (PyStr × ℚ)) (image : PyImage) : List PyStr :=
  match preprocess_for_ocr image with
  | some pimg => extract_card_names tess easy pimg
  | none => []

/-- The card-event records appended by `GameTracker.track_card_detection`.
`confidence` is the literal label `"detected"` in the source. -/
structure CardEvent where
  card_name : String
  timestamp : String
  screenshot : Option String
  confidence : String
deriving DecidableEq

/-- The event records appended by `GameTracker.track_game_event`; the
`data or \x7b\x7d` payload is modelled as an association list, absent
payloads normalised to the empty one. -/
structure GameEvent where
  event_type : String
  description : String
  timestamp : String
  data : List (String × String)
deriving DecidableEq

/-- The records appended by `GameTracker.track_screenshot`. -/
structure ScreenshotRecord where
  path : String
  timestamp : String
  ocr_results : Option (List (String × String))
deriving DecidableEq

/-- `GameTracker.current_session` (the spec's SessionState).  `end_time`
is absent until the first save. -/
structure Session where
  session_id : String
  start_time : String
  end_time : Option String
  cards_seen : List CardEvent
  scenarios : List String
  game_events : List GameEvent
  screenshots : List ScreenshotRecord
deriving DecidableEq

/-- The session built in `GameTracker.__init__`: empty lists throughout;
the id and start time come from `datetime.now()`, external, hence
parameters. -/
def freshSession (sid startTime : String) : Session :=
  { session_id := sid, start_time := startTime, end_time := none,
    cards_seen := [], scenarios := [], game_events := [], screenshots := [] }

/-- `GameTracker.track_card_detection`: one timestamp (`datetime.now()`,
external, hence a parameter) is taken per call; each name, in input
order, is appended as a `CardEvent` iff no already-recorded event carries
that exact name. -/
def track_card_detection (s : Session) (card_names : List String)
    (screenshot_path : Option String) (ts : String) : Session :=
  card_names.foldl (fun st name =>
    if name ∈ st.cards_seen.map CardEvent.card_name then st
    else { st with cards_seen := st.cards_seen ++
            [{ card_name := name, timestamp := ts,
               screenshot := screenshot_path, confidence := "detected" }] }) s

/-- `GameTracker.track_game_event`: always appends; an absent payload is
stored as the empty mapping. -/
def track_game_event (s : Session) (event_type description : String)
    (data : Option (List (String × String))) (ts : String) : Session :=
  { s with game_events := s.game_events ++
      [{ event_type := event_type, description := description,
         timestamp := ts, data := data.getD [] }] }

/-- `GameTracker.track_screenshot`: always appends. -/
def track_screenshot (s : Session) (path : String)
    (ocr_results : Option (List (String × String))) (ts : String) : Session :=
  { s with screenshots := s.screenshots ++
      [{ path := path, timestamp := ts, ocr_results := ocr_results }] }

/-- Python `card.lower()` on a card-name string (ASCII model, per-character
lower-casing). -/
def pyLowerStr (s : String) : String := String.mk (s.toList.map Char.toLower)

/-- Python `needle in hay` on strings (`"dungeon" in card.lower()`). -/
def strContains (needle hay : String) : Bool :=
  listContains needle.toList hay.toList

/-- `GameTracker.identify_scenario`: first-match priority over the fixed
rule list, case-insensitive substring matching (ASCII lower-casing). -/
def identify_scenario (detected_cards : List String) : String :=
  if detected_cards.any (fun card => strContains "dungeon" (pyLowerStr card)) then
    "Dungeon Exploration"
  else if detected_cards.any (fun card => strContains "market" (pyLowerStr card)) then
    "Market Phase"
  else if detected_cards.any (fun card => strContains "artifact" (pyLowerStr card)) then
    "Artifact Acquisition"
  else "Unknown Scenario"

/-- `GameTracker.save_session`: stamps `end_time` (from `datetime.now()`,
external) and serialises the session; the file write itself is external
I/O, so the model keeps the state change only. -/
def save_session (s : Session) (endTs : String) : Session :=
  { s with end_time := some endTs }

/-- `GameTracker.load_session`: `self.current_session = json.load(f)`.
`json.load` is the Python standard library, external to the repository,
modelled at its interface boundary by its outcome: either the parsed
session document or a `JSONDecodeError` (the spec's
`CorruptSessionError`).  The assignment runs only after a successful
parse, so the pair returned is the resulting live state together with the
error, if any. -/
def load_session (current : Session) (parsed : Except String Session) :
    Session × Option String :=
  match parsed with
  | Except.ok s => (s, none)
  | Except.error e => (current, some e)

/-- The statistics record of `GameTracker.get_session_stats`. -/
structure SessionStats where
  session_id : String
  duration : String
  unique_cards_seen : Nat
  total_events : Nat
  screenshots_captured : Nat
  scenarios_identified : Nat
deriving DecidableEq

/-- `GameTracker.get_session_stats`; the duration string is produced by
`_calculate_session_duration` from `datetime.now()`, external, hence a
parameter.  `scenarios_identified` is `len(set(scenarios))`, the number
of distinct entries. -/
def get_session_stats (s : Session) (durationStr : String) : SessionStats :=
  { session_id := s.session_id, duration := durationStr,
    unique_cards_seen := s.cards_seen.length,
    total_events := s.game_events.length,
    screenshots_captured := s.screenshots.length,
    scenarios_identified := s.scenarios.dedup.length }

/-- One line of the cards section of the report:
`f"  - \x7bcard['card_name']\x7d (at \x7bcard['timestamp']\x7d)\n"`. -/
def cardLine (c : CardEvent) : String :=
  "  - " ++ c.card_name ++ " (at " ++ c.timestamp ++ ")\n"

/-- One line of the events section of the report:
`f"  - \x7bevent['event_type']\x7d: \x7bevent['description']\x7d\n"`. -/
def eventLine (e : GameEvent) : String :=
  "  - " ++ e.event_type ++ ": " ++ e.description ++ "\n"

/-- The fixed leading part of `generate_session_report`, rendering the
fields of `get_session_stats`. -/
def reportHeader (s : Session) (durationStr : String) : String :=
  "\n🎮 CLANK! Tracker Session Report\n================================\n\nSession ID: "
    ++ (get_session_stats s durationStr).session_id
    ++ "\nDuration: " ++ (get_session_stats s durationStr).duration
    ++ "\nCards Detected: " ++ toString (get_session_stats s durationStr).unique_cards_seen
    ++ "\nGame Events: " ++ toString (get_session_stats s durationStr).total_events
    ++ "\nScreenshots: " ++ toString (get_session_stats s durationStr).screenshots_captured
    ++ "\n\n📄 Cards Seen:\n"

/-- `GameTracker.generate_session_report`: header, one line per card seen,
then the `game_events[-5:]` tail — Python `l[-5:]` is
`l.drop (l.length - 5)`. -/
def generate_session_report (s : Session) (durationStr : String) : String :=
  reportHeader s durationStr
    ++ String.join (s.cards_seen.map cardLine)
    ++ "\n🎯 Game Events:\n"
    ++ String.join ((s.game_events.drop (s.game_events.length - 5)).map eventLine)

/-- One `track_card_detection` call: its names, its optional screenshot
reference, and the timestamp `datetime.now()` produced for the call. -/
structure IngestCall where
  names : List String
  ref : Option String
  ts : String

/-- A sequence of `track_card_detection` calls applied in order. -/
def applyIngests (s : Session) (calls : List IngestCall) : Session :=
  calls.foldl (fun st c => track_card_detection st c.names c.ref c.ts) s

/-- The accumulator operations of `GameTracker`, with the timestamps and
duration strings their `datetime.now()` calls produce.  `identifyScenario`,
`genReport` and `getStats` are pure queries: the source methods read the
session and return a value without assigning to it. -/
inductive TrackerOp where
  | trackCards (names : List String) (ref : Option String) (ts : String)
  | trackEvent (ty desc : String) (data : Option (List (String × String))) (ts : String)
  | trackShot (path : String) (ocr : Option (List (String × String))) (ts : String)
  | identifyScenario (names : List String)
  | saveSession (ts : String)
  | genReport (durationStr : String)
  | getStats (durationStr : String)

/-- Effect of one accumulator operation on the session state. -/
def applyOp (s : Session) : TrackerOp → Session
  | TrackerOp.trackCards names ref ts => track_card_detection s names ref ts
  | TrackerOp.trackEvent ty desc data ts => track_game_event s ty desc data ts
  | TrackerOp.trackShot path ocr ts => track_screenshot s path ocr ts
  | TrackerOp.identifyScenario _ => s
  | TrackerOp.saveSession ts => save_session s ts
  | TrackerOp.genReport _ => s
  | TrackerOp.getStats _ => s

/-- A sequence of accumulator operations applied in order. -/
def applyOps (s : Session) (ops : List TrackerOp) : Session :=
  ops.foldl applyOp s

/-- Modelled from the spec (§4.3 step 3): title case with word boundaries
at whitespace only — "first letter of every whitespace-delimited word
upper-cased, rest lower-cased".  The flag records whether the scan is at
the start of a whitespace-delimited word. -/
def specTitleAux : Bool → PyStr → PyStr
  | _, [] => []
  | atStart, c :: cs =>
    if isPySpace c then c :: specTitleAux true cs
    else (if atStart then cpUpper c else cpLower c) :: specTitleAux false cs

/-- Modelled from the spec (§4.3 step 3): the characters the spec's
cleaning keeps — "alphanumeric, whitespace, a hyphen, or an apostrophe"
(note: no underscore). -/
def specKeep (c : Nat) : Bool :=
  isCpAlpha c || isCpDigit c || isPySpace c || c = 45 || c = 39

/-- Modelled from the spec (§4.3 step 3): collapse consecutive whitespace
to single spaces; strip every character that is not alphanumeric,
whitespace, a hyphen, or an apostrophe; convert to whitespace-delimited
title case; trim leading and trailing whitespace. -/
def clean_text_spec (s : PyStr) : PyStr :=
  pyStrip (specTitleAux true ((collapseWS s).filter specKeep))

/-- The character set `clean_text` actually keeps, worded as in the
amended claim: a word character (letter, digit or underscore),
whitespace, a hyphen, or an apostrophe. -/
def amendedKeep (c : Nat) : Bool :=
  isCpAlpha c || isCpDigit c || c = 95 || isPySpace c || c = 45 || c = 39

/-- The title-casing `clean_text` actually applies, worded as in the
amended claim: any letter that follows a non-letter (or starts the
string) is upper-cased, a letter that follows a letter is lower-cased, and
non-letters are left unchanged, so digits, hyphens, underscores and
apostrophes also delimit words. -/
def amendedTitle : Bool → PyStr → PyStr
  | _, [] => []
  | prevWasLetter, c :: cs =>
    if isCpAlpha c then
      (if prevWasLetter then cpLower c else cpUpper c) :: amendedTitle true cs
    else c :: amendedTitle false cs

/-- The amended description of `clean_text`: collapse whitespace runs to
single spaces, strip every character that is not a word character,
whitespace, a hyphen or an apostrophe, apply the non-letter-boundary
title casing, and trim whitespace. -/
def clean_text_amended (s : PyStr) : PyStr :=
  pyStrip (amendedTitle false ((collapseWS s).filter amendedKeep))

/-- A uniform mid-gray 1×1 capture: a concrete image on which the
preprocessor is not the identity (binarization maps the pixel to 255). -/
def imgC6 : PyImage := PyImage.rgb [[(100, 100, 100)]]

/-- An Engine A stand-in that reads the text `Gold` off the raw capture
`imgC6` and nothing off any other image — in particular nothing off the
preprocessed form of `imgC6`. -/
def tessC6 : PyImage → PyStr :=
  fun i => if i = imgC6 then pyStr "Gold" else []

/-- An Engine B stand-in that detects no regions anywhere. -/
def easyC6 : PyImage → List (PyStr × ℚ) := fun _ => []

/-! ### Helper lemmas -/

theorem dedupAux_cons {α : Type} [DecidableEq α] (acc : List α) (c : α) (cs : List α) :
    dedupAux acc (c :: cs) =
      if c ∈ acc then dedupAux acc cs else dedupAux (acc ++ [c]) cs := rfl

theorem dedupAux_nodup {α : Type} [DecidableEq α] :
    ∀ (l acc : List α), acc.Nodup → (dedupAux acc l).Nodup := by
  intro l
  induction l with
  | nil => intro acc h; exact h
  | cons c cs ih =>
    intro acc h
    rw [dedupAux_cons]
    by_cases hc : c ∈ acc
    · rw [if_pos hc]; exact ih acc h
    · rw [if_neg hc]
      refine ih (acc ++ [c]) ?_
      simp [List.nodup_append, h, hc]

theorem dedupAux_append {α : Type} [DecidableEq α] :
    ∀ (xs ys acc : List α), dedupAux acc (xs ++ ys) = dedupAux (dedupAux acc xs) ys := by
  intro xs
  induction xs with
  | nil => intro ys acc; rfl
  | cons c cs ih =>
    intro ys acc
    rw [List.cons_append, dedupAux_cons, dedupAux_cons]
    by_cases hc : c ∈ acc
    · rw [if_pos hc, if_pos hc, ih]
    · rw [if_neg hc, if_neg hc, ih]

theorem dedupAux_of_nodup {α : Type} [DecidableEq α] :
    ∀ (xs acc : List α), (∀ x ∈ xs, x ∉ acc) → xs.Nodup →
      dedupAux acc xs = acc ++ xs := by
  intro xs
  induction xs with
  | nil => intro acc _ _; simp [dedupAux]
  | cons c cs ih =>
    intro acc hdisj hnd
    rw [dedupAux_cons, if_neg (hdisj c (by simp))]
    rw [ih (acc ++ [c]) ?_ (List.Nodup.of_cons hnd)]
    · simp
    · intro x hx
      simp only [List.mem_append, List.mem_singleton]
      rintro (h | h)
      · exact hdisj x (by simp [hx]) h
      · subst h
        exact (List.nodup_cons.mp hnd).1 hx

theorem track_card_detection_cons (s : Session) (n : String) (ns : List String)
    (ref : Option String) (ts : String) :
    track_card_detection s (n :: ns) ref ts =
      track_card_detection
        (if n ∈ s.cards_seen.map CardEvent.card_name then s
         else { s with cards_seen := s.cards_seen ++
                 [{ card_name := n, timestamp := ts,
                    screenshot := ref, confidence := "detected" }] }) ns ref ts := by
  simp only [track_card_detection, List.foldl_cons]

theorem track_card_detection_names :
    ∀ (names : List String) (s : Session) (ref : Option String) (ts : String),
      (track_card_detection s names ref ts).cards_seen.map CardEvent.card_name =
        dedupAux (s.cards_seen.map CardEvent.card_name) names := by
  intro names
  induction names with
  | nil => intro s ref ts; rfl
  | cons n ns ih =>
    intro s ref ts
    rw [track_card_detection_cons, dedupAux_cons]
    by_cases hn : n ∈ s.cards_seen.map CardEvent.card_name
    · rw [if_pos hn, if_pos hn, ih]
    · rw [if_neg hn, if_neg hn, ih]
      simp

theorem track_card_detection_prefix :
    ∀ (names : List String) (s : Session) (ref : Option String) (ts : String),
      s.cards_seen <+: (track_card_detection s names ref ts).cards_seen := by
  intro names
  induction names with
  | nil => intro s ref ts; exact List.prefix_refl _
  | cons n ns ih =>
    intro s ref ts
    rw [track_card_detection_cons]
    by_cases hn : n ∈ s.cards_seen.map CardEvent.card_name
    · rw [if_pos hn]; exact ih s ref ts
    · rw [if_neg hn]
      refine List.IsPrefix.trans ?_ (ih _ ref ts)
      exact ⟨_, rfl⟩

theorem track_card_detection_scenarios :
    ∀ (names : List String) (s : Session) (ref : Option String) (ts : String),
      (track_card_detection s names ref ts).scenarios = s.scenarios := by
  intro names
  induction names with
  | nil => intro s ref ts; rfl
  | cons n ns ih =>
    intro s ref ts
    rw [track_card_detection_cons]
    by_cases hn : n ∈ s.cards_seen.map CardEvent.card_name
    · rw [if_pos hn]; exact ih s ref ts
    · rw [if_neg hn, ih]

theorem applyOp_scenarios (s : Session) (op : TrackerOp) :
    (applyOp s op).scenarios = s.scenarios := by
  cases op with
  | trackCards names ref ts => exact track_card_detection_scenarios names s ref ts
  | trackEvent ty desc data ts => rfl
  | trackShot path ocr ts => rfl
  | identifyScenario names => rfl
  | saveSession ts => rfl
  | genReport d => rfl
  | getStats d => rfl

theorem applyOps_scenarios :
    ∀ (ops : List TrackerOp) (s : Session), (applyOps s ops).scenarios = s.scenarios := by
  intro ops
  induction ops with
  | nil => intro s; rfl
  | cons op rest ih =>
    intro s
    show (applyOps (applyOp s op) rest).scenarios = s.scenarios
    rw [ih, applyOp_scenarios]

/-! ### Claim theorems -/

/-- C7: `load_session` replaces the live session wholesale when the
persisted document parses, and when the source is not well-formed
structured data it fails with the parse error (the spec's
`CorruptSessionError`) while the live session is neither mutated nor
discarded. -/
theorem load_session_atomic :
    (∀ (current parsedSession : Session),
      load_session current (Except.ok parsedSession) = (parsedSession, none))
    ∧ (∀ (current : Session) (e : String),
      load_session current (Except.error e) = (current, some e)) :=
  ⟨fun _ _ => rfl, fun _ _ => rfl⟩

/-- C9: the report renders the full card list but only the
`game_events[-5:]` tail: exactly `min 5 n` events with `n` recorded,
and that tail is a suffix of the event log, so the events appear in
order and are the most recent ones. -/
theorem generate_session_report_last_five (s : Session) (durationStr : String) :
    generate_session_report s durationStr =
      reportHeader s durationStr ++ String.join (s.cards_seen.map cardLine)
        ++ "\n🎯 Game Events:\n"
        ++ String.join ((s.game_events.drop (s.game_events.length - 5)).map eventLine)
    ∧ (s.game_events.drop (s.game_events.length - 5)).length = min 5 s.game_events.length
    ∧ (s.game_events.drop (s.game_events.length - 5)) <:+ s.game_events := by
  refine ⟨rfl, ?_, List.drop_suffix _ _⟩
  rw [List.length_drop]
  omega

/-- C10: no accumulator operation ever appends to or modifies the
`scenarios` sequence, so any session built from a fresh one by the
tracker's operations has empty `scenarios` and reports
`scenarios_identified = 0`. -/
theorem scenarios_stay_empty (sid startTime durationStr : String) (ops : List TrackerOp) :
    (applyOps (freshSession sid startTime) ops).scenarios = []
    ∧ (get_session_stats (applyOps (freshSession sid startTime) ops)
        durationStr).scenarios_identified = 0 := by
  have h : (applyOps (freshSession sid startTime) ops).scenarios = [] := by
    rw [applyOps_scenarios]
    rfl
  exact ⟨h, by simp [get_session_stats, h]⟩

/-- C8: `identify_scenario` applies first-match priority over the fixed
ordered rule list with case-insensitive substring matching — a name
containing "dungeon" forces "Dungeon Exploration"; failing that, "market"
forces "Market Phase"; failing that, "artifact" forces "Artifact
Acquisition"; otherwise "Unknown Scenario" — and in particular the mixed
dungeon/market input classifies as "Dungeon Exploration" in either input
order. -/
theorem identify_scenario_priority :
    (∀ names : List String,
      ((∃ card ∈ names, strContains "dungeon" (pyLowerStr card) = true) →
        identify_scenario names = "Dungeon Exploration")
      ∧ ((∀ card ∈ names, strContains "dungeon" (pyLowerStr card) = false) →
         (∃ card ∈ names, strContains "market" (pyLowerStr card) = true) →
         identify_scenario names = "Market Phase")
      ∧ ((∀ card ∈ names, strContains "dungeon" (pyLowerStr card) = false) →
         (∀ card ∈ names, strContains "market" (pyLowerStr card) = false) →
         (∃ card ∈ names, strContains "artifact" (pyLowerStr card) = true) →
         identify_scenario names = "Artifact Acquisition")
      ∧ ((∀ card ∈ names, strContains "dungeon" (pyLowerStr card) = false) →
         (∀ card ∈ names, strContains "market" (pyLowerStr card) = false) →
         (∀ card ∈ names, strContains "artifact" (pyLowerStr card) = false) →
         identify_scenario names = "Unknown Scenario"))
    ∧ identify_scenario ["Dungeon Room", "Market Stall"] = "Dungeon Exploration"
    ∧ identify_scenario ["Market Stall", "Dungeon Room"] = "Dungeon Exploration" := by
  refine ⟨?_, by decide, by decide⟩
  intro names
  refine ⟨?_, ?_, ?_, ?_⟩
  · intro h
    rw [identify_scenario, if_pos (by simpa [List.any_eq_true] using h)]
  · intro hd h
    rw [identify_scenario, if_neg (by simp [List.any_eq_true]; exact hd),
      if_pos (by simpa [List.any_eq_true] using h)]
  · intro hd hm h
    rw [identify_scenario, if_neg (by simp [List.any_eq_true]; exact hd),
      if_neg (by simp [List.any_eq_true]; exact hm),
      if_pos (by simpa [List.any_eq_true] using h)]
  · intro hd hm ha
    rw [identify_scenario, if_neg (by simp [List.any_eq_true]; exact hd),
      if_neg (by simp [List.any_eq_true]; exact hm),
      if_neg (by simp [List.any_eq_true]; exact ha)]

/-- C8 witness: the theorem applied at the concrete input
`["Market Stall"]` — no name contains "dungeon", one contains "market",
so the second rule fires. -/
theorem identify_scenario_priority_witness :
    identify_scenario ["Market Stall"] = "Market Phase" :=
  (identify_scenario_priority.1 ["Market Stall"]).2.1
    (by decide) ⟨"Market Stall", by decide, by decide⟩

/-- C4: `is_likely_card_name` rejects empty or shorter-than-3 text,
accepts on a keyword substring match of the lower-cased text, and
otherwise accepts exactly when the length is between 3 and 30 and at
least 70% of the characters are alphabetic; the five boundary examples of
the claim hold. -/
theorem is_likely_card_name_spec :
    (∀ text : PyStr,
      (text.length < 3 → is_likely_card_name text = false)
      ∧ (3 ≤ text.length →
         card_keywords.any (fun kw => listContains kw (text.map cpLower)) = true →
         is_likely_card_name text = true)
      ∧ (3 ≤ text.length →
         card_keywords.any (fun kw => listContains kw (text.map cpLower)) = false →
         (is_likely_card_name text = true ↔
           3 ≤ text.length ∧ text.length ≤ 30 ∧
             7 * text.length ≤ 10 * (text.filter isCpAlpha).length)))
    ∧ is_likely_card_name [] = false
    ∧ is_likely_card_name [120] = false
    ∧ is_likely_card_name (pyStr "12345") = false
    ∧ is_likely_card_name (pyStr "Skill Point") = true
    ∧ is_likely_card_name (List.replicate 50 97) = false := by
  refine ⟨?_, by decide, by decide, by decide, by decide, by decide⟩
  intro text
  refine ⟨?_, ?_, ?_⟩
  · intro h
    rw [is_likely_card_name, if_pos]
    simp [h]
  · intro hlen hkw
    rw [is_likely_card_name,
      if_neg (by cases text with
        | nil => simp at hlen
        | cons a t => simp [List.isEmpty] at hlen ⊢; omega),
      if_pos hkw]
  · intro hlen hkw
    rw [is_likely_card_name,
      if_neg (by cases text with
        | nil => simp at hlen
        | cons a t => simp [List.isEmpty] at hlen ⊢; omega),
      hkw]
    by_cases h30 : text.length ≤ 30
    · rw [if_neg (by simp), if_pos (by simp [hlen, h30])]
      simp [hlen, h30, ge_iff_le]
    · rw [if_neg (by simp), if_neg (by simp [h30])]
      simp
      omega

/-- C4 witness: the theorem applied at the concrete 10-character text
`BBBBBBB---` — no keyword matches, 7 of 10 characters are letters, so the
70% rule accepts it. -/
theorem is_likely_card_name_spec_witness :
    is_likely_card_name [66, 66, 66, 66, 66, 66, 66, 45, 45, 45] = true :=
  ((is_likely_card_name_spec.1 [66, 66, 66, 66, 66, 66, 66, 45, 45, 45]).2.2
    (by decide) (by decide)).mpr (by decide)

theorem applyIngests_nodup :
    ∀ (calls : List IngestCall) (s : Session),
      (s.cards_seen.map CardEvent.card_name).Nodup →
      ((applyIngests s calls).cards_seen.map CardEvent.card_name).Nodup := by
  intro calls
  induction calls with
  | nil => intro s h; exact h
  | cons c rest ih =>
    intro s h
    show ((applyIngests (track_card_detection s c.names c.ref c.ts) rest).cards_seen.map
      CardEvent.card_name).Nodup
    refine ih _ ?_
    rw [track_card_detection_names]
    exact dedupAux_nodup _ _ h

/-- C1: in any session reached from a fresh one by `track_card_detection`
calls, card names are pairwise distinct (at most one `CardEvent` per
exact name); a further call extends the name list exactly by
first-occurrence deduplication of its input against the names already
seen; previously accepted events — order and timestamps included — are
preserved as a prefix by every call; re-ingesting an already-seen name
changes nothing; and an empty input sequence changes nothing. -/
theorem track_card_detection_dedup (sid startTime : String) (calls : List IngestCall) :
    ((applyIngests (freshSession sid startTime) calls).cards_seen.map CardEvent.card_name).Nodup
    ∧ (∀ (names : List String) (ref : Option String) (ts : String),
        (track_card_detection (applyIngests (freshSession sid startTime) calls)
            names ref ts).cards_seen.map CardEvent.card_name
          = dedupFirst ((applyIngests (freshSession sid startTime) calls).cards_seen.map
              CardEvent.card_name ++ names))
    ∧ (∀ (names : List String) (ref : Option String) (ts : String),
        (applyIngests (freshSession sid startTime) calls).cards_seen <+:
          (track_card_detection (applyIngests (freshSession sid startTime) calls)
            names ref ts).cards_seen)
    ∧ (∀ (name : String) (ref : Option String) (ts : String),
        name ∈ (applyIngests (freshSession sid startTime) calls).cards_seen.map
          CardEvent.card_name →
        track_card_detection (applyIngests (freshSession sid startTime) calls) [name] ref ts
          = applyIngests (freshSession sid startTime) calls)
    ∧ (∀ (ref : Option String) (ts : String),
        track_card_detection (applyIngests (freshSession sid startTime) calls) [] ref ts
          = applyIngests (freshSession sid startTime) calls) := by
  have hnd : ((applyIngests (freshSession sid startTime) calls).cards_seen.map
      CardEvent.card_name).Nodup :=
    applyIngests_nodup calls _ (by simp [freshSession])
  refine ⟨hnd, ?_, ?_, ?_, ?_⟩
  · intro names ref ts
    rw [track_card_detection_names, dedupFirst, dedupAux_append,
      dedupAux_of_nodup _ [] (by simp) hnd]
    simp
  · intro names ref ts
    exact track_card_detection_prefix names _ ref ts
  · intro name ref ts h
    simp only [track_card_detection, List.foldl_cons, List.foldl_nil, if_pos h]
  · intro ref ts
    rfl

/-- C1 witness: the theorem applied to the single concrete call ingesting
`["Adventure Card", "Adventure Card", "New Card"]` — the session holds the
two names in order, and a later `track_card_detection` on the already-seen
name `"Adventure Card"` is exactly the identity on the session state. -/
theorem track_card_detection_dedup_witness :
    ((applyIngests (freshSession "s" "t0")
        [{ names := ["Adventure Card", "Adventure Card", "New Card"],
           ref := none, ts := "t1" }]).cards_seen.map CardEvent.card_name
      = ["Adventure Card", "New Card"])
    ∧ track_card_detection
        (applyIngests (freshSession "s" "t0")
          [{ names := ["Adventure Card", "Adventure Card", "New Card"],
             ref := none, ts := "t1" }]) ["Adventure Card"] none "t2"
      = applyIngests (freshSession "s" "t0")
          [{ names := ["Adventure Card", "Adventure Card", "New Card"],
             ref := none, ts := "t1" }] :=
  ⟨by decide,
   (track_card_detection_dedup "s" "t0"
      [{ names := ["Adventure Card", "Adventure Card", "New Card"],
         ref := none, ts := "t1" }]).2.2.2.1 "Adventure Card" none "t2" (by decide)⟩

/-- C3: `extract_card_names` returns Engine A's surviving cleaned lines in
original order followed by Engine B's surviving cleaned region texts in
original order — an Engine B region surviving only under confidence
strictly above 0.7, every kept string being cleaned and heuristically
filtered — deduplicated by exact equality keeping first occurrences; in
particular the result has no duplicates. -/
theorem extract_card_names_pipeline (tess : PyImage → PyStr)
    (easy : PyImage → List (PyStr × ℚ)) (image : PyImage) :
    extract_card_names tess easy image =
      dedupFirst ((((splitNl (tess image)).map clean_text).filter is_likely_card_name)
        ++ ((((easy image).filter (fun r => r.2 > 7/10)).map
              (fun r => clean_text r.1)).filter is_likely_card_name))
    ∧ (extract_card_names tess easy image).Nodup := by
  constructor
  · simp only [extract_card_names]
    by_cases h0 : tess image = []
    · rw [h0]
      rfl
    · have h : (tess image).isEmpty = false := by simpa [List.isEmpty_iff] using h0
      rw [h]
      rfl
  · exact dedupAux_nodup _ [] List.nodup_nil

/-- C6 counterexample: at the concrete uniform mid-gray capture `imgC6`,
with Engine A reading text off the raw capture only, the code's
`extract_card_names` (which hands its argument to the engines unchanged)
and the spec's pipeline (which preprocesses first) disagree: the code
extracts `Gold`, the spec's pipeline extracts nothing, because the
preprocessor binarizes the pixel to 255 and the engines see a different
image. -/
theorem extract_card_names_no_preprocess_cex :
    extract_card_names tessC6 easyC6 imgC6 ≠
      extract_card_names_spec tessC6 easyC6 imgC6 := by
  set_option maxRecDepth 100000 in decide

/-- C6 amended: `extract_card_names` invokes both recognition adapters on
the image it is given, performing no preprocessing of its own —
preprocessing is the separate `preprocess_for_ocr` operation — so the
spec's pipeline on an image is exactly `extract_card_names` applied to
that image's preprocessed form. -/
theorem extract_card_names_on_preprocessed (tess : PyImage → PyStr)
    (easy : PyImage → List (PyStr × ℚ)) (image pimg : PyImage)
    (h : preprocess_for_ocr image = some pimg) :
    extract_card_names_spec tess easy image = extract_card_names tess easy pimg := by
  simp [extract_card_names_spec, h]

/-- C6 witness: the amended theorem applied at the concrete capture
`imgC6`, whose preprocessed form is the binarized single-pixel image. -/
theorem extract_card_names_on_preprocessed_witness :
    preprocess_for_ocr imgC6 = some (PyImage.gray [[255]])
    ∧ extract_card_names_spec tessC6 easyC6 imgC6 =
        extract_card_names tessC6 easyC6 (PyImage.gray [[255]]) :=
  ⟨by set_option maxRecDepth 100000 in decide,
   extract_card_names_on_preprocessed tessC6 easyC6 imgC6 (PyImage.gray [[255]])
     (by set_option maxRecDepth 100000 in decide)⟩

/-- C5 counterexample: `clean_text` disagrees with the spec's description
of cleaning.  On `don't` (code points `[100, 111, 110, 39, 116]`) Python
`str.title` treats the apostrophe as a word boundary and yields `Don'T`,
while whitespace-delimited title case yields `Don't`; on `a_b`
(`[97, 95, 98]`) the code's `\w` class keeps the underscore, while the
spec's "alphanumeric, whitespace, hyphen, apostrophe" set strips it. -/
theorem clean_text_vs_spec_cex :
    clean_text [100, 111, 110, 39, 116] ≠ clean_text_spec [100, 111, 110, 39, 116]
    ∧ clean_text [97, 95, 98] ≠ clean_text_spec [97, 95, 98] :=
  ⟨by decide, by decide⟩

theorem keepCp_eq_amendedKeep (c : Nat) : keepCp c = amendedKeep c := by
  simp [keepCp, amendedKeep, isCpWord, Bool.or_assoc]

theorem titleAux_eq_amendedTitle :
    ∀ (s : PyStr) (b : Bool), titleAux b s = amendedTitle b s := by
  intro s
  induction s with
  | nil => intro b; rfl
  | cons c cs ih =>
    intro b
    simp only [titleAux, amendedTitle, ih]

/-- C5 amended: `clean_text` collapses whitespace runs to single spaces,
strips every character that is not a word character (letter, digit or
underscore), whitespace, a hyphen or an apostrophe, title-cases with word
boundaries at every non-letter (a letter after a non-letter is
upper-cased, a letter after a letter lower-cased, non-letters unchanged),
and trims leading and trailing whitespace. -/
theorem clean_text_amended_spec (s : PyStr) : clean_text s = clean_text_amended s := by
  rw [clean_text, clean_text_amended, pyTitle, stripArtifacts,
    List.filter_congr (fun x _ => keepCp_eq_amendedKeep x),
    titleAux_eq_amendedTitle]

/-! ### Cleaning stabilization: word-structure lemmas -/

theorem splitWordsAux_good :
    ∀ (s cur : List Nat), (∀ c ∈ cur, isPySpace c = false) →
      ∀ w ∈ splitWordsAux s cur, w ≠ [] ∧ ∀ c ∈ w, isPySpace c = false := by
  intro s
  induction s with
  | nil =>
    intro cur hcur w hw
    cases cur with
    | nil => simp [splitWordsAux] at hw
    | cons a t =>
      simp [splitWordsAux, List.isEmpty] at hw
      subst hw
      refine ⟨by simp, ?_⟩
      intro c hc
      exact hcur c (by simp at hc ⊢; tauto)
  | cons a as ih =>
    intro cur hcur w hw
    rw [splitWordsAux] at hw
    by_cases ha : isPySpace a = true
    · rw [if_pos ha] at hw
      cases cur with
      | nil => exact ih [] (by simp) w (by simpa [List.isEmpty] using hw)
      | cons b t =>
        rw [show ((b :: t) : List Nat).isEmpty = false from rfl,
          if_neg (by simp)] at hw
        rcases List.mem_cons.mp hw with h | h
        · subst h
          refine ⟨by simp, ?_⟩
          intro c hc
          exact hcur c (List.mem_reverse.mp hc)
        · exact ih [] (by simp) w h
    · rw [if_neg ha] at hw
      refine ih (a :: cur) ?_ w hw
      intro c hc
      rcases List.mem_cons.mp hc with h | h
      · subst h; simpa using ha
      · exact hcur c h

theorem splitWordsAux_subset :
    ∀ (s cur : List Nat) (w : PyStr), w ∈ splitWordsAux s cur →
      ∀ c ∈ w, c ∈ s ∨ c ∈ cur := by
  intro s
  induction s with
  | nil =>
    intro cur w hw c hc
    cases cur with
    | nil => simp [splitWordsAux] at hw
    | cons a t =>
      simp [splitWordsAux, List.isEmpty] at hw
      subst hw
      exact Or.inr (show c ∈ a :: t by simp at hc ⊢; tauto)
  | cons a as ih =>
    intro cur w hw c hc
    rw [splitWordsAux] at hw
    by_cases ha : isPySpace a = true
    · rw [if_pos ha] at hw
      cases cur with
      | nil =>
        rcases ih [] w (by simpa [List.isEmpty] using hw) c hc with h | h
        · exact Or.inl (List.mem_cons_of_mem a h)
        · simp at h
      | cons b t =>
        rw [show ((b :: t) : List Nat).isEmpty = false from rfl,
          if_neg (by simp)] at hw
        rcases List.mem_cons.mp hw with h | h
        · subst h
          exact Or.inr (List.mem_reverse.mp hc)
        · rcases ih [] w h c hc with h2 | h2
          · exact Or.inl (List.mem_cons_of_mem a h2)
          · simp at h2
    · rw [if_neg ha] at hw
      rcases ih (a :: cur) w hw c hc with h | h
      · exact Or.inl (List.mem_cons_of_mem a h)
      · rcases List.mem_cons.mp h with h2 | h2
        · exact Or.inl (h2 ▸ List.mem_cons_self a as)
        · exact Or.inr h2

theorem splitWordsAux_word :
    ∀ (w cur : List Nat), (∀ c ∈ w, isPySpace c = false) → cur.reverse ++ w ≠ [] →
      splitWordsAux w cur = [cur.reverse ++ w] := by
  intro w
  induction w with
  | nil =>
    intro cur _ hne
    cases cur with
    | nil => simp at hne
    | cons a t => simp [splitWordsAux, List.isEmpty]
  | cons a as ih =>
    intro cur hw _
    rw [splitWordsAux, if_neg (by simp [hw a (by simp)])]
    rw [ih (a :: cur) (fun c hc => hw c (List.mem_cons_of_mem a hc)) (by simp)]
    simp

theorem splitWordsAux_word_space :
    ∀ (w : List Nat) (cur rest : List Nat),
      (∀ c ∈ w, isPySpace c = false) → cur.reverse ++ w ≠ [] →
      splitWordsAux (w ++ 32 :: rest) cur =
        (cur.reverse ++ w) :: splitWordsAux rest [] := by
  intro w
  induction w with
  | nil =>
    intro cur rest _ hne
    cases cur with
    | nil => simp at hne
    | cons a t => simp [splitWordsAux, isPySpace, List.isEmpty]
  | cons a as ih =>
    intro cur rest hw _
    rw [List.cons_append, splitWordsAux, if_neg (by simp [hw a (by simp)])]
    rw [ih (a :: cur) rest (fun c hc => hw c (List.mem_cons_of_mem a hc)) (by simp)]
    simp

theorem splitWords_joinSpace :
    ∀ (ws : List PyStr), (∀ w ∈ ws, w ≠ [] ∧ ∀ c ∈ w, isPySpace c = false) →
      splitWords (joinSpace ws) = ws := by
  intro ws
  induction ws with
  | nil => intro _; rfl
  | cons w rest ih =>
    intro hgood
    cases rest with
    | nil =>
      have hw := hgood w (by simp)
      show splitWordsAux w [] = [w]
      simpa using splitWordsAux_word w [] hw.2 (by simpa using hw.1)
    | cons w2 rest2 =>
      have hw := hgood w (by simp)
      show splitWordsAux (w ++ 32 :: joinSpace (w2 :: rest2)) [] = w :: w2 :: rest2
      rw [splitWordsAux_word_space w [] (joinSpace (w2 :: rest2)) hw.2
        (by simpa using hw.1)]
      simp only [List.reverse_nil, List.nil_append]
      rw [show splitWordsAux (joinSpace (w2 :: rest2)) [] =
        splitWords (joinSpace (w2 :: rest2)) from rfl]
      rw [ih (fun u hu => hgood u (List.mem_cons_of_mem w hu))]

theorem joinSpace_mem :
    ∀ (ws : List PyStr) (c : Nat), c ∈ joinSpace ws → c = 32 ∨ ∃ w ∈ ws, c ∈ w := by
  intro ws
  induction ws with
  | nil => intro c hc; simp [joinSpace] at hc
  | cons w rest ih =>
    intro c hc
    cases rest with
    | nil => exact Or.inr ⟨w, by simp, by simpa [joinSpace] using hc⟩
    | cons w2 rest2 =>
      simp only [joinSpace, List.mem_append, List.mem_cons] at hc
      rcases hc with h | h | h
      · exact Or.inr ⟨w, by simp, h⟩
      · exact Or.inl h
      · rcases ih c h with h2 | ⟨u, hu, hcu⟩
        · exact Or.inl h2
        · exact Or.inr ⟨u, List.mem_cons_of_mem w hu, hcu⟩

/-! ### Cleaning stabilization: character and title-case lemmas -/

theorem cpUpper_cpUpper (c : Nat) : cpUpper (cpUpper c) = cpUpper c := by
  simp only [cpUpper, isCpLower, Bool.and_eq_true, decide_eq_true_eq]
  split_ifs <;> omega

theorem cpLower_cpLower (c : Nat) : cpLower (cpLower c) = cpLower c := by
  simp only [cpLower, isCpUpper, Bool.and_eq_true, decide_eq_true_eq]
  split_ifs <;> omega

theorem isCpAlpha_cpUpper (c : Nat) (h : isCpAlpha c = true) :
    isCpAlpha (cpUpper c) = true := by
  simp only [isCpAlpha, isCpLower, isCpUpper, cpUpper, Bool.or_eq_true,
    Bool.and_eq_true, decide_eq_true_eq] at h ⊢
  split_ifs <;> omega

theorem isCpAlpha_cpLower (c : Nat) (h : isCpAlpha c = true) :
    isCpAlpha (cpLower c) = true := by
  simp only [isCpAlpha, isCpLower, isCpUpper, cpLower, Bool.or_eq_true,
    Bool.and_eq_true, decide_eq_true_eq] at h ⊢
  split_ifs <;> omega

theorem isPySpace_cpUpper (c : Nat) (h : isCpAlpha c = true) :
    isPySpace (cpUpper c) = false := by
  simp only [isCpAlpha, isCpLower, isCpUpper, cpUpper, isPySpace, Bool.or_eq_true,
    Bool.and_eq_true, decide_eq_true_eq] at h ⊢
  simp only [Bool.or_eq_false_iff, decide_eq_false_iff_not]
  split_ifs <;> omega

theorem isPySpace_cpLower (c : Nat) (h : isCpAlpha c = true) :
    isPySpace (cpLower c) = false := by
  simp only [isCpAlpha, isCpLower, isCpUpper, cpLower, isPySpace, Bool.or_eq_true,
    Bool.and_eq_true, decide_eq_true_eq] at h ⊢
  simp only [Bool.or_eq_false_iff, decide_eq_false_iff_not]
  split_ifs <;> omega

theorem keepCp_cpUpper (c : Nat) (h : isCpAlpha c = true) :
    keepCp (cpUpper c) = true := by
  simp only [keepCp, isCpWord, isCpAlpha, isCpLower, isCpUpper, cpUpper, isCpDigit,
    isPySpace, Bool.or_eq_true, Bool.and_eq_true, decide_eq_true_eq] at h ⊢
  split_ifs <;> omega

theorem keepCp_cpLower (c : Nat) (h : isCpAlpha c = true) :
    keepCp (cpLower c) = true := by
  simp only [keepCp, isCpWord, isCpAlpha, isCpLower, isCpUpper, cpLower, isCpDigit,
    isPySpace, Bool.or_eq_true, Bool.and_eq_true, decide_eq_true_eq] at h ⊢
  split_ifs <;> omega

theorem titleAux_length : ∀ (s : PyStr) (b : Bool), (titleAux b s).length = s.length := by
  intro s
  induction s with
  | nil => intro b; rfl
  | cons c cs ih =>
    intro b
    simp only [titleAux]
    split_ifs <;> simp [ih]

theorem titleAux_nonspace :
    ∀ (s : PyStr) (b : Bool), (∀ c ∈ s, isPySpace c = false) →
      ∀ c ∈ titleAux b s, isPySpace c = false := by
  intro s
  induction s with
  | nil => intro b _ c hc; simp [titleAux] at hc
  | cons a as ih =>
    intro b hs c hc
    simp only [titleAux] at hc
    by_cases ha : isCpAlpha a = true
    · rw [if_pos ha] at hc
      rcases List.mem_cons.mp hc with h | h
      · subst h
        cases b with
        | false => exact isPySpace_cpUpper a ha
        | true => exact isPySpace_cpLower a ha
      · exact ih true (fun d hd => hs d (List.mem_cons_of_mem a hd)) c h
    · rw [if_neg ha] at hc
      rcases List.mem_cons.mp hc with h | h
      · rw [h]; exact hs a (List.mem_cons_self a as)
      · exact ih false (fun d hd => hs d (List.mem_cons_of_mem a hd)) c h

theorem titleAux_keep :
    ∀ (s : PyStr) (b : Bool), (∀ c ∈ s, keepCp c = true) →
      ∀ c ∈ titleAux b s, keepCp c = true := by
  intro s
  induction s with
  | nil => intro b _ c hc; simp [titleAux] at hc
  | cons a as ih =>
    intro b hs c hc
    simp only [titleAux] at hc
    by_cases ha : isCpAlpha a = true
    · rw [if_pos ha] at hc
      rcases List.mem_cons.mp hc with h | h
      · subst h
        cases b with
        | false => exact keepCp_cpUpper a ha
        | true => exact keepCp_cpLower a ha
      · exact ih true (fun d hd => hs d (List.mem_cons_of_mem a hd)) c h
    · rw [if_neg ha] at hc
      rcases List.mem_cons.mp hc with h | h
      · rw [h]; exact hs a (List.mem_cons_self a as)
      · exact ih false (fun d hd => hs d (List.mem_cons_of_mem a hd)) c h

theorem titleAux_append_space :
    ∀ (w : PyStr) (b : Bool) (rest : PyStr),
      titleAux b (w ++ 32 :: rest) = titleAux b w ++ 32 :: titleAux false rest := by
  intro w
  induction w with
  | nil => intro b rest; rfl
  | cons a as ih =>
    intro b rest
    simp only [List.cons_append, titleAux, List.append_eq]
    by_cases ha : isCpAlpha a = true
    · rw [if_pos ha, if_pos ha, ih true]
      simp
    · rw [if_neg ha, if_neg ha, ih false]
      simp

theorem pyTitle_joinSpace :
    ∀ (ws : List PyStr),
      pyTitle (joinSpace ws) = joinSpace (ws.map (fun w => titleAux false w)) := by
  intro ws
  induction ws with
  | nil => rfl
  | cons w rest ih =>
    cases rest with
    | nil => rfl
    | cons w2 rest2 =>
      show titleAux false (w ++ 32 :: joinSpace (w2 :: rest2)) = _
      rw [titleAux_append_space,
        show titleAux false (joinSpace (w2 :: rest2)) =
          pyTitle (joinSpace (w2 :: rest2)) from rfl, ih]
      rfl

theorem titleAux_idem :
    ∀ (s : PyStr) (b : Bool), titleAux b (titleAux b s) = titleAux b s := by
  intro s
  induction s with
  | nil => intro b; rfl
  | cons c cs ih =>
    intro b
    by_cases h : isCpAlpha c = true
    · cases b with
      | false =>
        rw [show titleAux false (c :: cs) = cpUpper c :: titleAux true cs by
          simp [titleAux, h]]
        rw [show titleAux false (cpUpper c :: titleAux true cs) =
            cpUpper (cpUpper c) :: titleAux true (titleAux true cs) by
          simp [titleAux, isCpAlpha_cpUpper c h]]
        rw [cpUpper_cpUpper, ih true]
      | true =>
        rw [show titleAux true (c :: cs) = cpLower c :: titleAux true cs by
          simp [titleAux, h]]
        rw [show titleAux true (cpLower c :: titleAux true cs) =
            cpLower (cpLower c) :: titleAux true (titleAux true cs) by
          simp [titleAux, isCpAlpha_cpLower c h]]
        rw [cpLower_cpLower, ih true]
    · rw [show titleAux b (c :: cs) = c :: titleAux false cs by
        simp [titleAux, h]]
      rw [show titleAux b (c :: titleAux false cs) =
          c :: titleAux false (titleAux false cs) by
        simp [titleAux, h]]
      rw [ih false]

theorem pyTitle_idem (s : PyStr) : pyTitle (pyTitle s) = pyTitle s :=
  titleAux_idem s false

/-! ### Cleaning stabilization: strip and assembly lemmas -/

theorem dropWhile_space_id (xs : List Nat)
    (h : ∀ c, xs.head? = some c → isPySpace c = false) :
    xs.dropWhile isPySpace = xs := by
  cases xs with
  | nil => rfl
  | cons a t => rw [List.dropWhile_cons, if_neg (by simp [h a rfl])]

theorem joinSpace_ne_nil :
    ∀ (ws : List PyStr), (∀ w ∈ ws, w ≠ [] ∧ ∀ c ∈ w, isPySpace c = false) →
      ws ≠ [] → joinSpace ws ≠ [] := by
  intro ws hgood hne
  cases ws with
  | nil => simp at hne
  | cons w rest =>
    cases rest with
    | nil => simpa [joinSpace] using (hgood w (by simp)).1
    | cons w2 rest2 =>
      show w ++ 32 :: joinSpace (w2 :: rest2) ≠ []
      simp

theorem joinSpace_head_nonspace :
    ∀ (ws : List PyStr), (∀ w ∈ ws, w ≠ [] ∧ ∀ c ∈ w, isPySpace c = false) →
      ∀ c, (joinSpace ws).head? = some c → isPySpace c = false := by
  intro ws hgood c hc
  cases ws with
  | nil => simp [joinSpace] at hc
  | cons w rest =>
    have hw := hgood w (by simp)
    cases hwshape : w with
    | nil => exact absurd hwshape hw.1
    | cons a t =>
      have hmem : a ∈ w := by rw [hwshape]; simp
      have ha : isPySpace a = false := hw.2 a hmem
      cases rest with
      | nil =>
        simp only [joinSpace, hwshape, List.head?] at hc
        exact Option.some.inj hc ▸ ha
      | cons w2 rest2 =>
        have : joinSpace (w :: w2 :: rest2) = a :: (t ++ 32 :: joinSpace (w2 :: rest2)) := by
          show w ++ 32 :: joinSpace (w2 :: rest2) = _
          rw [hwshape]
          simp
        rw [this] at hc
        simp only [List.head?] at hc
        exact Option.some.inj hc ▸ ha

theorem joinSpace_getLast_nonspace :
    ∀ (ws : List PyStr), (∀ w ∈ ws, w ≠ [] ∧ ∀ c ∈ w, isPySpace c = false) →
      ∀ c, (joinSpace ws).getLast? = some c → isPySpace c = false := by
  intro ws
  induction ws with
  | nil => intro _ c hc; simp [joinSpace] at hc
  | cons w rest ih =>
    intro hgood c hc
    have hw := hgood w (by simp)
    cases rest with
    | nil =>
      have hmem : c ∈ w := by
        have heq : joinSpace [w] = w := rfl
        rw [heq] at hc
        rcases List.mem_getLast?_eq_getLast hc with ⟨hne, hcl⟩
        rw [hcl]
        exact List.getLast_mem hne
      exact hw.2 c hmem
    | cons w2 rest2 =>
      have hJ : joinSpace (w2 :: rest2) ≠ [] :=
        joinSpace_ne_nil (w2 :: rest2)
          (fun u hu => hgood u (List.mem_cons_of_mem w hu)) (by simp)
      have hstep : joinSpace (w :: w2 :: rest2) = w ++ 32 :: joinSpace (w2 :: rest2) := rfl
      rw [hstep, List.getLast?_append_cons,
        show (32 :: joinSpace (w2 :: rest2)) = [32] ++ joinSpace (w2 :: rest2) from rfl,
        List.getLast?_append_of_ne_nil [32] hJ] at hc
      exact ih (fun u hu => hgood u (List.mem_cons_of_mem w hu)) c hc

theorem pyStrip_joinSpace
    (ws : List PyStr) (hgood : ∀ w ∈ ws, w ≠ [] ∧ ∀ c ∈ w, isPySpace c = false) :
    pyStrip (joinSpace ws) = joinSpace ws := by
  rw [pyStrip, dropWhile_space_id _ (joinSpace_head_nonspace ws hgood),
    dropWhile_space_id _ ?_, List.reverse_reverse]
  intro c hc
  rw [List.head?_reverse] at hc
  exact joinSpace_getLast_nonspace ws hgood c hc

theorem pyStrip_subset (xs : List Nat) (c : Nat) (hc : c ∈ pyStrip xs) : c ∈ xs := by
  rw [pyStrip] at hc
  rw [List.mem_reverse] at hc
  have h1 := (List.dropWhile_sublist (l := (xs.dropWhile isPySpace).reverse)
    (p := isPySpace)).subset hc
  rw [List.mem_reverse] at h1
  exact (List.dropWhile_sublist (l := xs) (p := isPySpace)).subset h1

theorem filter_keep_id (xs : List Nat) (h : ∀ c ∈ xs, keepCp c = true) :
    xs.filter keepCp = xs := by
  induction xs with
  | nil => rfl
  | cons a t ih =>
    rw [List.filter_cons, if_pos (h a (by simp)),
      ih (fun c hc => h c (List.mem_cons_of_mem a hc))]

theorem clean_text_chars (s : PyStr) (c : Nat) (hc : c ∈ clean_text s) :
    keepCp c = true := by
  have h1 : c ∈ pyTitle (stripArtifacts (collapseWS s)) := pyStrip_subset _ c hc
  refine titleAux_keep _ false ?_ c h1
  intro d hd
  exact List.of_mem_filter hd

theorem collapseWS_keep (ys : PyStr) (h : ∀ c ∈ ys, keepCp c = true) :
    ∀ c ∈ collapseWS ys, keepCp c = true := by
  intro c hc
  rcases joinSpace_mem _ c hc with h32 | ⟨w, hw, hcw⟩
  · rw [h32]; rfl
  · rcases splitWordsAux_subset ys [] w hw c hcw with h1 | h1
    · exact h c h1
    · simp at h1

theorem map_titleAux_good (ys : PyStr) :
    ∀ w ∈ (splitWords ys).map (fun u => titleAux false u),
      w ≠ [] ∧ ∀ c ∈ w, isPySpace c = false := by
  intro w hw
  rcases List.mem_map.mp hw with ⟨u, hu, rfl⟩
  have hg := splitWordsAux_good ys [] (by simp) u hu
  constructor
  · intro hnil
    have hlen := titleAux_length u false
    rw [hnil] at hlen
    exact hg.1 (List.length_eq_zero.mp hlen.symm)
  · exact titleAux_nonspace u false hg.2

theorem clean_text_of_keep (ys : PyStr) (h : ∀ c ∈ ys, keepCp c = true) :
    clean_text ys = pyTitle (collapseWS ys) := by
  rw [clean_text, stripArtifacts, filter_keep_id _ (collapseWS_keep ys h)]
  rw [show collapseWS ys = joinSpace (splitWords ys) from rfl, pyTitle_joinSpace]
  exact pyStrip_joinSpace _ (map_titleAux_good ys)

/-- C2 counterexample: cleaning is not idempotent.  On the code points of
`a ? b` (`[97, 32, 63, 32, 98]`) the first clean removes the `?` after
whitespace was already collapsed, leaving the double space in `A  B`; a
second clean collapses it to `A B`. -/
theorem clean_text_not_idempotent_cex :
    clean_text (clean_text [97, 32, 63, 32, 98]) ≠ clean_text [97, 32, 63, 32, 98] := by
  decide

/-- C2 amended: cleaning stabilizes after two applications — for every
string `s`, `clean(clean(clean(s))) = clean(clean(s))` — and a single
application is not idempotent in general, because stripping disallowed
characters can create consecutive spaces after whitespace has already
been collapsed. -/
theorem clean_text_stabilizes (s : PyStr) :
    clean_text (clean_text (clean_text s)) = clean_text (clean_text s) := by
  have h2 : clean_text (clean_text s) = pyTitle (collapseWS (clean_text s)) :=
    clean_text_of_keep _ (clean_text_chars s)
  have h3 : clean_text (clean_text s) =
      joinSpace ((splitWords (clean_text s)).map (fun u => titleAux false u)) := by
    rw [h2, show collapseWS (clean_text s) =
      joinSpace (splitWords (clean_text s)) from rfl, pyTitle_joinSpace]
  have h4 : clean_text (clean_text (clean_text s)) =
      pyTitle (collapseWS (clean_text (clean_text s))) :=
    clean_text_of_keep _ (clean_text_chars (clean_text s))
  have h5 : collapseWS (clean_text (clean_text s)) = clean_text (clean_text s) := by
    rw [h3, show collapseWS (joinSpace ((splitWords (clean_text s)).map
        (fun u => titleAux false u))) =
      joinSpace (splitWords (joinSpace ((splitWords (clean_text s)).map
        (fun u => titleAux false u)))) from rfl]
    rw [splitWords_joinSpace _ (map_titleAux_good (clean_text s))]
  have h6 : pyTitle (clean_text (clean_text s)) = clean_text (clean_text s) := by
    rw [h3, ← pyTitle_joinSpace, pyTitle_idem, pyTitle_joinSpace]
  rw [h4, h5, h6]
